import Mathlib

/-!
Verification of the OpenCowork UI-automation scripts
(xiaohongshu-creator/scripts/publish.py and
wechat-ui-sender/scripts/send_wechat.py) against their
natural-language specification.

Strings are modelled as lists of Unicode scalar values (Lean Char),
matching Python3 strings as sequences of code points.  Each definition
below is a direct translation of the corresponding Python function,
with the source location recorded in its doc comment.
-/

namespace OpenCowork

/-- Python str whitespace test, covering the code points Python treats as
whitespace in str.strip, str.split and the regex class for non-space. -/
def pyIsSpace (c : Char) : Bool :=
  c = ' ' || c = '\t' || c = '\n' || c = '\r' ||
  c = Char.ofNat 0x0b || c = Char.ofNat 0x0c ||
  c = Char.ofNat 0x1c || c = Char.ofNat 0x1d ||
  c = Char.ofNat 0x1e || c = Char.ofNat 0x1f ||
  c = Char.ofNat 0x85 || c = Char.ofNat 0xa0 ||
  c = Char.ofNat 0x1680 ||
  (Char.ofNat 0x2000 ≤ c && c ≤ Char.ofNat 0x200a) ||
  c = Char.ofNat 0x2028 || c = Char.ofNat 0x2029 ||
  c = Char.ofNat 0x202f || c = Char.ofNat 0x205f ||
  c = Char.ofNat 0x3000

/-- Removal of leading whitespace, as in Python str.lstrip. -/
def pyLstrip (l : List Char) : List Char :=
  l.dropWhile pyIsSpace

/-- Removal of trailing whitespace, as in Python str.rstrip. -/
def pyRstrip (l : List Char) : List Char :=
  (l.reverse.dropWhile pyIsSpace).reverse

/-- Python str.strip: removal of leading and trailing whitespace. -/
def pyStrip (l : List Char) : List Char :=
  pyLstrip (pyRstrip l)

/-- ASCII lowering of one character, the fragment of Python str.lower
relevant to the strings handled by the scripts. -/
def pyLowerChar (c : Char) : Char :=
  if 'A' ≤ c ∧ c ≤ 'Z' then Char.ofNat (c.toNat + 32) else c

/-- Helper for pySplit: accumulates the current token (reversed). -/
def pySplitAux : List Char → List Char → List (List Char)
  | [], acc => if acc = [] then [] else [acc.reverse]
  | c :: rest, acc =>
    if pyIsSpace c then
      if acc = [] then pySplitAux rest [] else acc.reverse :: pySplitAux rest []
    else
      pySplitAux rest (c :: acc)

/-- Python str.split() with no argument: split on runs of whitespace,
discarding empty tokens. -/
def pySplit (l : List Char) : List (List Char) :=
  pySplitAux l []

/-- Whether the second list begins with the first list, used to model
the Python substring operator. -/
def startsWithL : List Char → List Char → Bool
  | _, [] => true
  | [], _ :: _ => false
  | a :: as, b :: bs => a = b && startsWithL as bs

/-- Python substring containment: containsSub big small decides whether
small occurs contiguously inside big (the Python expression small in big). -/
def containsSub : List Char → List Char → Bool
  | big, small =>
    match big with
    | [] => startsWithL [] small
    | a :: rest => startsWithL (a :: rest) small || containsSub rest small

/-- Helper for pyRfind: index of the last occurrence, or -1. -/
def pyRfindAux (c : Char) : List Char → Int
  | [] => -1
  | a :: rest =>
    if 0 ≤ pyRfindAux c rest then pyRfindAux c rest + 1
    else if a = c then 0 else -1

/-- Python str.rfind for a single character: the largest index holding
the character, or -1 when it does not occur. -/
def pyRfind (l : List Char) (c : Char) : Int :=
  pyRfindAux c l

/-- Membership in the regex character class _EMOJI_RE_PATTERN of
publish.py lines 109-114, listing each code-point range of the class. -/
def isEmoji (c : Char) : Bool :=
  (Char.ofNat 0x1F600 ≤ c && c ≤ Char.ofNat 0x1F64F) ||
  (Char.ofNat 0x1F300 ≤ c && c ≤ Char.ofNat 0x1F5FF) ||
  (Char.ofNat 0x1F680 ≤ c && c ≤ Char.ofNat 0x1F6FF) ||
  (Char.ofNat 0x1F1E0 ≤ c && c ≤ Char.ofNat 0x1F1FF) ||
  (Char.ofNat 0x2702 ≤ c && c ≤ Char.ofNat 0x27B0) ||
  (Char.ofNat 0x1F900 ≤ c && c ≤ Char.ofNat 0x1F9FF) ||
  (Char.ofNat 0x1FA00 ≤ c && c ≤ Char.ofNat 0x1FA6F) ||
  (Char.ofNat 0x1FA70 ≤ c && c ≤ Char.ofNat 0x1FAFF) ||
  (Char.ofNat 0x2600 ≤ c && c ≤ Char.ofNat 0x26FF) ||
  (Char.ofNat 0xFE00 ≤ c && c ≤ Char.ofNat 0xFE0F) ||
  c = Char.ofNat 0x200D

/-- publish.py lines 117-120, _strip_emoji: re.sub of the emoji character
class (one-or-more) with the empty string, which deletes exactly the
characters belonging to the class. -/
def stripEmoji (l : List Char) : List Char :=
  l.filter (fun c => !isEmoji c)

/-- Removal of regex matches of hash-followed-by-nonspace-run, as in
re.sub applied in _make_image_text (publish.py line 127).  The boolean
state records whether we are inside a matched run being deleted. -/
def subHashAux : List Char → Bool → List Char
  | [], _ => []
  | c :: rest, true =>
    if pyIsSpace c then c :: subHashAux rest false
    else subHashAux rest true
  | c :: rest, false =>
    if c = '#' then
      match rest with
      | [] => ['#']
      | d :: rest2 =>
        if pyIsSpace d then '#' :: subHashAux (d :: rest2) false
        else subHashAux rest2 true
    else c :: subHashAux rest false

/-- Deletion of every hashtag token (a hash sign followed by at least one
non-whitespace character, maximal munch), matching the leftmost
non-overlapping semantics of re.sub. -/
def subHash (l : List Char) : List Char :=
  subHashAux l false

/-- publish.py lines 123-131, _make_image_text: strip emoji, delete
hashtag tokens, strip surrounding whitespace, truncate to maxLen; when
that leaves the empty string, fall back to the first maxLen characters
of the original content. -/
def makeImageText (content : List Char) (maxLen : Nat) : List Char :=
  let text := stripEmoji content
  let text := subHash text
  let text := pyStrip text
  let text := if maxLen < text.length then text.take maxLen else text
  if text = [] then content.take maxLen else text

/-- publish.py line 143: the ordered separator list used by
_truncate_title when looking for a break point. -/
def truncateSeps : List Char :=
  ['！', '!', '，', ',', '。', '？', '?', '｜', '|', ' ', '、']

/-- publish.py lines 143-147: the separator loop of _truncate_title.
The first separator whose last occurrence lies strictly after the
midpoint cuts the truncated prefix just after that occurrence. -/
def sepCut : List Char → List Char → Nat → List Char
  | [], tr, _ => tr
  | sep :: rest, tr, maxLen =>
    if ((maxLen / 2 : Nat) : Int) < pyRfind tr sep then
      tr.take ((pyRfind tr sep).toNat + 1)
    else sepCut rest tr maxLen

/-- publish.py lines 134-148, _truncate_title: strip emoji and
whitespace; return unchanged when within maxLen; otherwise cut to
maxLen and try to break at the last separator after the midpoint. -/
def truncateTitle (title : List Char) (maxLen : Nat) : List Char :=
  let t := pyStrip (stripEmoji title)
  if t.length ≤ maxLen then t
  else sepCut truncateSeps (t.take maxLen) maxLen

/-- publish.py line 107: XHS_TITLE_MAX_LEN. -/
def xhsTitleMaxLen : Nat := 20

/-- The structured outcome statuses returned by publish_content
(publish.py lines 171, 208, 258, 281, 372, 377, 380). -/
inductive Status where
  | published
  | ready_to_confirm
  | ready
  | not_logged_in
  | error
deriving DecidableEq, Repr

/-- Selector-chain resolution with instrumentation, modelling the
repeated pattern of publish.py (for sel in chain: try wait_for_selector
with a per-candidate timeout, break on success, continue on timeout).
env gives the element a selector resolves to, or none on timeout;
a failed candidate consumes the full timeout, a successful one consumes
succTime of it.  The result carries the resolved element, the list of
candidates actually attempted (in order), and the elapsed time. -/
def resolveTimed {σ α : Type} (env : σ → Option α) (timeout : Nat)
    (succTime : σ → Nat) : List σ → Option α × List σ × Nat
  | [] => (none, [], 0)
  | s :: rest =>
    match env s with
    | some h => (some h, [s], succTime s)
    | none =>
      let r := resolveTimed env timeout succTime rest
      (r.1, s :: r.2.1, timeout + r.2.2)

/-- The untimed result of chain resolution: the first candidate the
environment resolves, in declared order. -/
def resolveChain {σ α : Type} (env : σ → Option α) : List σ → Option α
  | [] => none
  | s :: rest =>
    match env s with
    | some h => some h
    | none => resolveChain env rest

/-- publish.py lines 188-195: the locator chain for the text-to-image
button, in declared order. -/
def textToImageSelectors : List String :=
  ["text=文字配图",
   "div:has-text('文字配图')",
   "span:has-text('文字配图')",
   "button:has-text('文字配图')",
   "[class*='text-image']",
   "[class*='textImage']"]

/-- publish.py lines 187-208: after resolving the text-to-image chain,
a missing element yields the error outcome, otherwise the flow
proceeds (modelled as none). -/
def textToImageStatus (env : String → Option Nat) : Option Status :=
  match resolveChain env textToImageSelectors with
  | none => some Status.error
  | some _ => none

/-- publish.py lines 92-99, the polling loop of _wait_for_login: up to
fuel polls, each preceded by a 3 second sleep; obs i is whether the
login cookie check succeeds at poll i.  Returns the index of the first
successful poll together with the seconds slept. -/
def waitLoopT (obs : Nat → Bool) : Nat → Nat → Option Nat × Nat
  | 0, _ => (none, 0)
  | fuel + 1, i =>
    if obs i then (some i, 3)
    else
      let r := waitLoopT obs fuel (i + 1)
      (r.1, 3 + r.2)

/-- publish.py lines 83-99, _wait_for_login: 100 polls at 3 second
intervals; some i means the page is returned at poll i, none means
timeout (the function returns None). -/
def waitForLogin (obs : Nat → Bool) : Option Nat :=
  (waitLoopT obs 100 0).1

/-- Wall-clock seconds spent sleeping inside _wait_for_login. -/
def loginElapsed (obs : Nat → Bool) : Nat :=
  (waitLoopT obs 100 0).2

/-- publish.py lines 167-174: the login gate of publish_content.  When
the cookie check already succeeds the flow proceeds (none); otherwise a
single _wait_for_login call decides: success proceeds, timeout ends the
whole run with the not_logged_in outcome. -/
def publishLoginPhase (loggedIn : Bool) (obs : Nat → Bool) : Option Status :=
  if loggedIn then none
  else
    match waitForLogin obs with
    | some _ => none
    | none => some Status.not_logged_in

/-- Events in the submission tail of publish_content: an upload poll at
index i, or the click on the publish button. -/
inductive PEvent where
  | uploadPoll (i : Nat)
  | publishClick
deriving DecidableEq, Repr

/-- publish.py lines 336-349, the upload-completion wait: up to fuel
polls; uploading i is whether an in-progress marker is present at poll
i; the loop breaks at the first poll with no marker.  Returns the poll
events in order and whether the wait observed the marker absent. -/
def uploadWaitAux (uploading : Nat → Bool) : Nat → Nat → List PEvent × Bool
  | 0, _ => ([], false)
  | fuel + 1, i =>
    if uploading i then
      let r := uploadWaitAux uploading fuel (i + 1)
      (PEvent.uploadPoll i :: r.1, r.2)
    else ([PEvent.uploadPoll i], true)

/-- The bounded upload wait of publish.py line 336: at most 30 polls. -/
def uploadWait (uploading : Nat → Bool) : List PEvent × Bool :=
  uploadWaitAux uploading 30 0

/-- publish.py lines 355-380: the submission step.  hasButton is
whether the publish-button query returned any button; marker is whether
the success marker appeared within its bounded wait after the click. -/
def submitPhase (hasButton marker : Bool) : Status × List PEvent :=
  if hasButton then
    ((if marker then Status.published else Status.ready_to_confirm),
     [PEvent.publishClick])
  else (Status.ready, [])

/-- publish.py lines 334-380: upload wait followed by the submission
step, with the concatenated event trace. -/
def publishFinal (uploading : Nat → Bool) (hasButton marker : Bool) :
    Status × List PEvent :=
  let u := uploadWait uploading
  let s := submitPhase hasButton marker
  (s.1, u.1 ++ s.2)

/-- A window as observed through pygetwindow: width, height, minimized
flag (send_wechat.py lines 126-148). -/
structure Win where
  width : Nat
  height : Nat
  minimized : Bool
deriving DecidableEq, Repr

/-- The external world as seen by activate_wechat across attempts
(1-indexed): the window found at each attempt (with the geometry
observed after the restore or activate call settles), and whether the
WeChat process is running at each attempt. -/
structure WEnv where
  findWin : Nat → Option Win
  procRunning : Nat → Bool

/-- Observable actions of activate_wechat: a window query at attempt i,
the process check at attempt i, a launch_wechat call at attempt i, a
restore_from_tray call at attempt i. -/
inductive AEvent where
  | findAttempt (i : Nat)
  | procCheck (i : Nat)
  | launchTry (i : Nat)
  | trayRestore (i : Nat)
deriving DecidableEq, Repr

/-- send_wechat.py lines 125-168, the attempt loop of activate_wechat,
with attempt counting up and fuel = remaining attempts.  An attempt
queries the window list; a found window whose width and height exceed
100 is returned; otherwise, on a non-final attempt the process is
checked and either launch_wechat (process absent) or restore_from_tray
(process present) runs before the next attempt; the final failed
attempt stops with none (the RuntimeError of lines 165-168). -/
def activateAux (env : WEnv) (maxRetries : Nat) :
    Nat → Nat → Option Win × List AEvent
  | _, 0 => (none, [])
  | attempt, fuel + 1 =>
    let found :=
      match env.findWin attempt with
      | some w => if 100 < w.width ∧ 100 < w.height then some w else none
      | none => none
    match found with
    | some w => (some w, [AEvent.findAttempt attempt])
    | none =>
      if attempt < maxRetries then
        let mids :=
          if env.procRunning attempt then [AEvent.trayRestore attempt]
          else [AEvent.launchTry attempt]
        let r := activateAux env maxRetries (attempt + 1) fuel
        (r.1, AEvent.findAttempt attempt :: AEvent.procCheck attempt :: mids ++ r.2)
      else (none, [AEvent.findAttempt attempt])

/-- send_wechat.py lines 118-170, activate_wechat: run the attempt loop
from attempt 1 with maxRetries attempts of fuel.  none models the
RuntimeError raised after the final failed attempt. -/
def activateWechat (env : WEnv) (maxRetries : Nat) : Option Win × List AEvent :=
  activateAux env maxRetries 1 maxRetries

/-- The launch environment of launch_wechat: which of the six
WECHAT_PATHS entries exist, whether Popen on an existing path succeeds,
and whether the shell start command is spawned without exception. -/
structure LaunchEnv where
  pathExists : Nat → Bool
  popenOk : Nat → Bool
  shellOk : Bool

/-- send_wechat.py lines 73-94, the body of launch_wechat: walk the
prioritized path list in order; the first existing path is launched,
a Popen exception moves on to the next path; when the list is
exhausted, fall back to the shell start command (shellOk false models
its Popen raising, which yields False).  The trace lists the indices of
the existing paths actually tried. -/
def launchAux (le : LaunchEnv) : List Nat → Bool × List Nat
  | [] => (le.shellOk, [])
  | j :: rest =>
    if le.pathExists j then
      if le.popenOk j then (true, [j])
      else
        let r := launchAux le rest
        (r.1, j :: r.2)
    else launchAux le rest

/-- send_wechat.py lines 56-94, launch_wechat over the six entries of
WECHAT_PATHS (lines 24-31). -/
def launchWechat (le : LaunchEnv) : Bool × List Nat :=
  launchAux le [0, 1, 2, 3, 4, 5]

/-- Key events sent by select_contact_with_retry: the down arrow and
the enter key. -/
inductive KeyEv where
  | down
  | enter
deriving DecidableEq, Repr

/-- send_wechat.py line 190: the keyword tokens derived from the
contact query - whitespace tokens, stripped, kept when at least two
characters long, lowercased. -/
def deriveKeywords (contact : List Char) : List (List Char) :=
  ((pySplit contact).filter (fun k => 2 ≤ (pyStrip k).length)).map
    (fun k => (pyStrip k).map pyLowerChar)

/-- send_wechat.py lines 203-211: the title check of one attempt - the
observed window title (none when no window is found or pygetwindow
raises), lowercased, searched for any keyword as a substring. -/
def titleMatches (keywords : List (List Char)) (title : Option (List Char)) : Bool :=
  match title with
  | none => false
  | some t => keywords.any (fun kw => containsSub (t.map pyLowerChar) kw)

/-- send_wechat.py lines 192-214, the attempt loop of
select_contact_with_retry: attempt 0 presses nothing; attempt i > 0
presses the down arrow i times then enter; each attempt then reads the
current window title and returns True when it contains a keyword; after
the last attempt the function returns False.  The trace records the key
events in order. -/
def selectAux (keywords : List (List Char)) (titleAt : Nat → Option (List Char)) :
    Nat → Nat → Bool × List KeyEv
  | _, 0 => (false, [])
  | attempt, fuel + 1 =>
    let presses :=
      if 0 < attempt then List.replicate attempt KeyEv.down ++ [KeyEv.enter]
      else []
    if titleMatches keywords (titleAt attempt) then (true, presses)
    else
      let r := selectAux keywords titleAt (attempt + 1) fuel
      (r.1, presses ++ r.2)

/-- send_wechat.py lines 181-214, select_contact_with_retry with
maxRetries attempts, keywords derived from the contact query. -/
def selectContactWithRetry (contact : List Char)
    (titleAt : Nat → Option (List Char)) (maxRetries : Nat) : Bool × List KeyEv :=
  selectAux (deriveKeywords contact) titleAt 0 maxRetries

/-- publish.py lines 434-445 (and 447-462): main runs publish_content,
prints the JSON result and returns; the interpreter then exits with
code 0 whatever the outcome status is.  argsOk is whether title and
content were supplied and readable (lines 437-439 exit with code 1
before any outcome exists when they are not). -/
def publishCommandExit (argsOk : Bool) (result : Status) : Nat :=
  if argsOk then 0 else 1

/-- send_wechat.py lines 471-512: the automation flow is wrapped in a
try block; any exception exits with code 1 (line 508), otherwise main
prints status=success and exits with code 0. -/
def wechatMainExit (raised : Bool) : Nat :=
  if raised then 1 else 0

/-- Whether an AEvent is a window query. -/
def isFindEvent : AEvent → Bool
  | AEvent.findAttempt _ => true
  | _ => false

/-- Whether a PEvent is an upload poll. -/
def isUploadPoll : PEvent → Bool
  | PEvent.uploadPoll _ => true
  | _ => false

/-! ## Helper lemmas about the Python string primitives -/

theorem stripEmoji_no_emoji (l : List Char) (c : Char) (h : c ∈ stripEmoji l) :
    isEmoji c = false := by
  have h2 := (List.mem_filter.mp h).2
  simpa using h2

theorem stripEmoji_eq_self (l : List Char) (h : ∀ c ∈ l, isEmoji c = false) :
    stripEmoji l = l := by
  apply List.filter_eq_self.mpr
  intro a ha
  simpa using h a ha

theorem lstrip_head_not_space (l : List Char) (c : Char)
    (h : (pyLstrip l).head? = some c) : pyIsSpace c = false := by
  induction l with
  | nil => simp [pyLstrip] at h
  | cons a t ih =>
    by_cases ha : pyIsSpace a
    · exact ih (by simpa [pyLstrip, List.dropWhile_cons, ha] using h)
    · have : a = c := by simpa [pyLstrip, List.dropWhile_cons, ha] using h
      subst this
      simpa using ha

theorem pyLstrip_mem (l : List Char) (c : Char) (h : c ∈ pyLstrip l) : c ∈ l :=
  (List.dropWhile_sublist _).mem h

theorem pyRstrip_mem (l : List Char) (c : Char) (h : c ∈ pyRstrip l) : c ∈ l := by
  unfold pyRstrip at h
  have h1 := List.mem_reverse.mp h
  exact List.mem_reverse.mp ((List.dropWhile_sublist _).mem h1)

theorem pyStrip_mem (l : List Char) (c : Char) (h : c ∈ pyStrip l) : c ∈ l :=
  pyRstrip_mem l c (pyLstrip_mem _ c h)

theorem pyRstrip_length_le (l : List Char) : (pyRstrip l).length ≤ l.length := by
  unfold pyRstrip
  have h := (List.dropWhile_sublist (l := l.reverse) pyIsSpace).length_le
  simpa using h

theorem pyRstrip_head (l : List Char) (c : Char)
    (h : (pyRstrip l).head? = some c) : l.head? = some c := by
  have hsplit := List.takeWhile_append_dropWhile (l := l.reverse) (p := pyIsSpace)
  have hl : (l.reverse.dropWhile pyIsSpace).reverse ++
      (l.reverse.takeWhile pyIsSpace).reverse = l := by
    rw [← List.reverse_append, hsplit, List.reverse_reverse]
  rw [← hl]
  unfold pyRstrip at h
  cases hr : (l.reverse.dropWhile pyIsSpace).reverse with
  | nil => rw [hr] at h; simp at h
  | cons x xs =>
    rw [hr] at h
    simpa using h

theorem lstrip_eq_self_of_head (l : List Char)
    (h : ∀ c, l.head? = some c → pyIsSpace c = false) : pyLstrip l = l := by
  cases l with
  | nil => rfl
  | cons a t =>
    have ha : pyIsSpace a = false := h a rfl
    simp [pyLstrip, List.dropWhile_cons, ha]

theorem pyStrip_head_not_space (l : List Char) (c : Char)
    (h : (pyStrip l).head? = some c) : pyIsSpace c = false :=
  lstrip_head_not_space _ c h

theorem head_take_some (l : List Char) (n : Nat) (c : Char)
    (h : (l.take n).head? = some c) : l.head? = some c := by
  cases n <;> cases l <;> simp_all

theorem rstrip_last_not_space (l : List Char) (c : Char)
    (h : (pyRstrip l).getLast? = some c) : pyIsSpace c = false := by
  unfold pyRstrip at h
  rw [List.getLast?_reverse] at h
  exact lstrip_head_not_space l.reverse c h

/-! ## Helper lemmas about rfind and sepCut -/

theorem rfind_le_of_getElem (l : List Char) (k : Nat) (c : Char)
    (h : l[k]? = some c) : (k : Int) ≤ pyRfind l c := by
  induction l generalizing k with
  | nil => simp at h
  | cons a t ih =>
    show (k : Int) ≤ pyRfindAux c (a :: t)
    cases k with
    | zero =>
      have hac : a = c := by simpa using h
      simp only [pyRfindAux]
      by_cases hr : (0 : Int) ≤ pyRfindAux c t
      · rw [if_pos hr]
        omega
      · rw [if_neg hr, if_pos hac]
        simp
    | succ m =>
      have hm : t[m]? = some c := by simpa using h
      have hle : (m : Int) ≤ pyRfindAux c t := ih m hm
      have hr : (0 : Int) ≤ pyRfindAux c t := by omega
      simp only [pyRfindAux]
      rw [if_pos hr]
      push_cast
      omega

theorem rfind_getElem (l : List Char) (c : Char) (h : 0 ≤ pyRfind l c) :
    ∃ k : Nat, (k : Int) = pyRfind l c ∧ l[k]? = some c := by
  induction l with
  | nil => simp [pyRfind, pyRfindAux] at h
  | cons a t ih =>
    by_cases hr : (0 : Int) ≤ pyRfindAux c t
    · obtain ⟨k, hk, hget⟩ := ih hr
      refine ⟨k + 1, ?_, by simpa using hget⟩
      show ((k + 1 : Nat) : Int) = pyRfindAux c (a :: t)
      simp only [pyRfindAux]
      rw [if_pos hr]
      have hk2 : (k : Int) = pyRfindAux c t := hk
      push_cast
      omega
    · by_cases hac : a = c
      · refine ⟨0, ?_, by simpa using hac⟩
        show ((0 : Nat) : Int) = pyRfindAux c (a :: t)
        simp only [pyRfindAux]
        rw [if_neg hr, if_pos hac]
        rfl
      · exfalso
        have hminus : pyRfind (a :: t) c = -1 := by
          show pyRfindAux c (a :: t) = -1
          simp only [pyRfindAux]
          rw [if_neg hr, if_neg hac]
        omega

theorem rfind_nonneg_of_lt {l : List Char} {c : Char} {b : Int}
    (hb : 0 ≤ b) (h : b < pyRfind l c) : 0 ≤ pyRfind l c := by omega

theorem sepCut_is_take (seps : List Char) (tr : List Char) (m : Nat) :
    ∃ n, sepCut seps tr m = tr.take n := by
  induction seps with
  | nil =>
    refine ⟨tr.length, ?_⟩
    simp only [sepCut]
    exact (List.take_length tr).symm
  | cons s rest ih =>
    by_cases hc : ((m / 2 : Nat) : Int) < pyRfind tr s
    · refine ⟨(pyRfind tr s).toNat + 1, ?_⟩
      simp only [sepCut]
      rw [if_pos hc]
    · obtain ⟨n, hn⟩ := ih
      refine ⟨n, ?_⟩
      simp only [sepCut]
      rw [if_neg hc]
      exact hn

theorem sepCut_length_le (seps : List Char) (tr : List Char) (m : Nat) :
    (sepCut seps tr m).length ≤ tr.length := by
  obtain ⟨n, hn⟩ := sepCut_is_take seps tr m
  rw [hn, List.length_take]
  omega

theorem getLast_take_of_getElem (l : List Char) (k : Nat) (c : Char)
    (h : l[k]? = some c) : (l.take (k + 1)).getLast? = some c := by
  rw [List.take_succ, h]
  exact List.getLast?_concat _

theorem sepCut_break (seps : List Char) (tr : List Char) (m : Nat)
    (h : ∃ s ∈ seps, ((m / 2 : Nat) : Int) < pyRfind tr s) :
    ∃ s ∈ seps, ∃ k : Nat, sepCut seps tr m = tr.take (k + 1) ∧
      tr[k]? = some s ∧ m / 2 < k := by
  induction seps with
  | nil => simp at h
  | cons s0 rest ih =>
    by_cases hc : ((m / 2 : Nat) : Int) < pyRfind tr s0
    · have h0 : 0 ≤ pyRfind tr s0 := rfind_nonneg_of_lt (by omega) hc
      obtain ⟨k, hk, hget⟩ := rfind_getElem tr s0 h0
      refine ⟨s0, by simp, k, ?_, hget, ?_⟩
      · simp only [sepCut]
        rw [if_pos hc]
        congr 1
        omega
      · omega
    · obtain ⟨s, hs, hlt⟩ := h
      have hs2 : s ∈ rest := by
        rcases List.mem_cons.mp hs with h1 | h1
        · subst h1; exact absurd hlt hc
        · exact h1
      obtain ⟨s2, hs3, k, hcut, hget, hk⟩ := ih ⟨s, hs2, hlt⟩
      refine ⟨s2, List.mem_cons_of_mem _ hs3, k, ?_, hget, hk⟩
      simp only [sepCut]
      rw [if_neg hc]
      exact hcut

/-! ## Helper lemmas about truncateTitle -/

theorem truncate_is_take (title : List Char) (m : Nat) :
    ∃ n, truncateTitle title m = (pyStrip (stripEmoji title)).take n := by
  simp only [truncateTitle]
  by_cases hlen : (pyStrip (stripEmoji title)).length ≤ m
  · rw [if_pos hlen]
    exact ⟨(pyStrip (stripEmoji title)).length, (List.take_length _).symm⟩
  · rw [if_neg hlen]
    obtain ⟨n, hn⟩ :=
      sepCut_is_take truncateSeps ((pyStrip (stripEmoji title)).take m) m
    refine ⟨min n m, ?_⟩
    rw [hn, List.take_take]

theorem truncate_length_le (title : List Char) (m : Nat) :
    (truncateTitle title m).length ≤ m := by
  simp only [truncateTitle]
  by_cases hlen : (pyStrip (stripEmoji title)).length ≤ m
  · rw [if_pos hlen]
    exact hlen
  · rw [if_neg hlen]
    have h1 := sepCut_length_le truncateSeps ((pyStrip (stripEmoji title)).take m) m
    have h2 : (((pyStrip (stripEmoji title))).take m).length ≤ m := by
      rw [List.length_take]
      omega
    omega

theorem truncate_head_not_space (title : List Char) (m : Nat) (c : Char)
    (h : (truncateTitle title m).head? = some c) : pyIsSpace c = false := by
  obtain ⟨n, hn⟩ := truncate_is_take title m
  rw [hn] at h
  exact pyStrip_head_not_space _ c (head_take_some _ n c h)

theorem truncate_no_emoji (title : List Char) (m : Nat) (c : Char)
    (h : c ∈ truncateTitle title m) : isEmoji c = false := by
  obtain ⟨n, hn⟩ := truncate_is_take title m
  rw [hn] at h
  exact stripEmoji_no_emoji title c (pyStrip_mem _ c (List.take_subset _ _ h))

/-! ## Claim C1 (corrected) -/

/-- C1 counterexample: title truncation is not idempotent.  On the
21-character input of 14 letters, a space and 6 letters, _truncate_title
cuts at the space and returns a result with a trailing space, and a
second application strips that trailing space, giving a different
string. -/
theorem truncate_title_idem_cex :
    truncateTitle (truncateTitle ("aaaaaaaaaaaaaa bbbbbb".toList) 20) 20 ≠
      truncateTitle ("aaaaaaaaaaaaaa bbbbbb".toList) 20 := by decide

/-- C1 (amended): applying _truncate_title twice equals applying it once
and then removing trailing whitespace (so idempotence holds exactly when
the truncated title has no trailing whitespace); the result length is at
most 20; and when the stripped title exceeds 20 characters and its
20-character prefix has a separator strictly after the midpoint (index
greater than 10), the result ends at such a separator, at an index
greater than 10. -/
theorem truncate_title_amended (title : List Char) :
    truncateTitle (truncateTitle title 20) 20 =
      pyRstrip (truncateTitle title 20) ∧
    (truncateTitle title 20).length ≤ 20 ∧
    (20 < (pyStrip (stripEmoji title)).length →
      (∃ sep ∈ truncateSeps, ∃ k : Nat, 10 < k ∧
        ((pyStrip (stripEmoji title)).take 20)[k]? = some sep) →
      ∃ sep ∈ truncateSeps, (truncateTitle title 20).getLast? = some sep ∧
        11 < (truncateTitle title 20).length) := by
  have hb := truncate_length_le title 20
  refine ⟨?_, hb, ?_⟩
  · have hne : ∀ c ∈ truncateTitle title 20, isEmoji c = false :=
      fun c hc => truncate_no_emoji title 20 c hc
    have h1 : stripEmoji (truncateTitle title 20) = truncateTitle title 20 :=
      stripEmoji_eq_self _ hne
    have hhead : ∀ c, (pyRstrip (truncateTitle title 20)).head? = some c →
        pyIsSpace c = false := by
      intro c hc
      exact truncate_head_not_space title 20 c (pyRstrip_head _ c hc)
    have h2 : pyStrip (stripEmoji (truncateTitle title 20)) =
        pyRstrip (truncateTitle title 20) := by
      rw [h1]
      unfold pyStrip
      exact lstrip_eq_self_of_head _ hhead
    have h3 : (pyStrip (stripEmoji (truncateTitle title 20))).length ≤ 20 := by
      rw [h2]
      exact le_trans (pyRstrip_length_le _) hb
    show (if (pyStrip (stripEmoji (truncateTitle title 20))).length ≤ 20
          then pyStrip (stripEmoji (truncateTitle title 20))
          else sepCut truncateSeps
            ((pyStrip (stripEmoji (truncateTitle title 20))).take 20) 20)
        = pyRstrip (truncateTitle title 20)
    rw [if_pos h3, h2]
  · intro hlong hocc
    obtain ⟨sep, hsep, k, hk, hget⟩ := hocc
    have hrfle := rfind_le_of_getElem _ k sep hget
    have hrf : ((20 / 2 : Nat) : Int) <
        pyRfind ((pyStrip (stripEmoji title)).take 20) sep := by
      have h10 : ((20 / 2 : Nat) : Int) = 10 := by norm_num
      omega
    obtain ⟨s, hs, k2, hcut, hget2, hk2⟩ :=
      sepCut_break truncateSeps ((pyStrip (stripEmoji title)).take 20) 20
        ⟨sep, hsep, hrf⟩
    have hres : truncateTitle title 20 =
        ((pyStrip (stripEmoji title)).take 20).take (k2 + 1) := by
      simp only [truncateTitle]
      rw [if_neg (by omega), hcut]
    rcases List.getElem?_eq_some_iff.mp hget2 with ⟨hk2len, _⟩
    refine ⟨s, hs, ?_, ?_⟩
    · rw [hres]
      exact getLast_take_of_getElem _ k2 s hget2
    · rw [hres, List.length_take]
      rw [List.length_take] at hk2len
      omega

/-- C1 amended witness: a concrete title of 12 letters, a comma and 10
letters, on which the truncation cuts at the comma at index 12. -/
theorem truncate_title_amended_witness :
    truncateTitle (truncateTitle ("aaaaaaaaaaaa,bbbbbbbbbb".toList) 20) 20 =
      pyRstrip (truncateTitle ("aaaaaaaaaaaa,bbbbbbbbbb".toList) 20) ∧
    (truncateTitle ("aaaaaaaaaaaa,bbbbbbbbbb".toList) 20).length ≤ 20 ∧
    (∃ sep ∈ truncateSeps,
      (truncateTitle ("aaaaaaaaaaaa,bbbbbbbbbb".toList) 20).getLast? = some sep ∧
      11 < (truncateTitle ("aaaaaaaaaaaa,bbbbbbbbbb".toList) 20).length) :=
  ⟨(truncate_title_amended _).1, (truncate_title_amended _).2.1,
   (truncate_title_amended _).2.2 (by decide)
     ⟨',', by decide, 12, by decide, by decide⟩⟩

/-! ## Claim C2 (confirmed) -/

/-- C2: emoji stripping is the identity on every string containing no
code point of the emoji pattern, removes every such code point (in
particular every supplementary-plane one the pattern lists), and maps
the sample string with the party-popper emoji between two spaces to the
same string with the emoji deleted. -/
theorem strip_emoji_claim :
    (∀ l : List Char, (∀ c ∈ l, isEmoji c = false) → stripEmoji l = l) ∧
    (∀ (l : List Char) (c : Char), c ∈ stripEmoji l → isEmoji c = false) ∧
    stripEmoji ("Hello 🎉 World".toList) = "Hello  World".toList :=
  ⟨fun l h => stripEmoji_eq_self l h,
   fun l c h => stripEmoji_no_emoji l c h,
   by decide⟩

/-- C2 witness: the claim instantiated at concrete strings. -/
theorem strip_emoji_claim_witness :
    stripEmoji ("abc".toList) = "abc".toList ∧
    isEmoji 'e' = false ∧
    stripEmoji ("Hello 🎉 World".toList) = "Hello  World".toList :=
  ⟨strip_emoji_claim.1 ("abc".toList) (by decide),
   strip_emoji_claim.2.1 ("Hello 🎉 World".toList) 'e' (by decide),
   strip_emoji_claim.2.2⟩

/-! ## Claim C9 (confirmed) -/

/-- C9: the image-text excerpt never exceeds maxLen characters, and
whenever stripping emoji and hashtag tokens plus surrounding whitespace
leaves the empty string, the excerpt is the first maxLen characters of
the original content, unmodified. -/
theorem make_image_text_claim (content : List Char) (maxLen : Nat) :
    (makeImageText content maxLen).length ≤ maxLen ∧
    (pyStrip (subHash (stripEmoji content)) = [] →
      makeImageText content maxLen = content.take maxLen) := by
  constructor
  · simp only [makeImageText]
    by_cases h1 : maxLen < (pyStrip (subHash (stripEmoji content))).length
    · rw [if_pos h1]
      by_cases h2 : (pyStrip (subHash (stripEmoji content))).take maxLen = []
      · rw [if_pos h2, List.length_take]
        omega
      · rw [if_neg h2, List.length_take]
        omega
    · rw [if_neg h1]
      by_cases h2 : pyStrip (subHash (stripEmoji content)) = []
      · rw [if_pos h2, List.length_take]
        omega
      · rw [if_neg h2]
        omega
  · intro h
    simp only [makeImageText, h]
    simp

/-- C9 witness: a content made of one hashtag token and one emoji, whose
stripped form is empty, falls back to the raw prefix of the content. -/
theorem make_image_text_claim_witness :
    (makeImageText ("#tag 🎉".toList) 500).length ≤ 500 ∧
    makeImageText ("#tag 🎉".toList) 500 = ("#tag 🎉".toList).take 500 :=
  ⟨(make_image_text_claim ("#tag 🎉".toList) 500).1,
   (make_image_text_claim ("#tag 🎉".toList) 500).2 (by decide)⟩

/-! ## Claim C7 (corrected) -/

/-- C7 counterexample: a publish.py run whose structured outcome has
status error still exits with code 0 - main prints the JSON result and
returns without inspecting the status. -/
theorem exit_code_error_cex : publishCommandExit true Status.error = 0 := rfl

/-- C7 (amended): the publish script exits with code 0 for every
structured outcome, including status error (non-zero exits happen there
only for missing or unreadable arguments, before any outcome exists);
only the wechat sender exits non-zero on failure, where failures raise
and exit with code 1 while a successful run exits with code 0. -/
theorem exit_code_amended :
    (∀ st : Status, publishCommandExit true st = 0) ∧
    (∀ st : Status, publishCommandExit false st = 1) ∧
    wechatMainExit false = 0 ∧
    wechatMainExit true = 1 :=
  ⟨fun _ => rfl, fun _ => rfl, rfl, rfl⟩

/-! ## Claim C4 (confirmed) -/

theorem waitLoopT_spec (obs : Nat → Bool) :
    ∀ fuel start : Nat,
      (∀ i, (waitLoopT obs fuel start).1 = some i →
        obs i = true ∧ start ≤ i ∧ i < start + fuel ∧
        (∀ j, start ≤ j → j < i → obs j = false) ∧
        (waitLoopT obs fuel start).2 = 3 * (i + 1 - start)) ∧
      ((waitLoopT obs fuel start).1 = none ↔
        ∀ i, start ≤ i → i < start + fuel → obs i = false) ∧
      ((waitLoopT obs fuel start).1 = none →
        (waitLoopT obs fuel start).2 = 3 * fuel) := by
  intro fuel
  induction fuel with
  | zero =>
    intro start
    refine ⟨?_, ?_, ?_⟩
    · intro i h
      simp [waitLoopT] at h
    · constructor
      · intro _ i h1 h2
        omega
      · intro _
        simp [waitLoopT]
    · intro _
      simp [waitLoopT]
  | succ f ih =>
    intro start
    by_cases ho : obs start
    · have he : waitLoopT obs (f + 1) start = (some start, 3) := by
        simp [waitLoopT, ho]
      refine ⟨?_, ?_, ?_⟩
      · intro i h
        rw [he] at h
        have hsi : start = i := by simpa using h
        subst hsi
        refine ⟨ho, le_refl _, by omega, ?_, ?_⟩
        · intro j h1 h2
          omega
        · rw [he]
          simp
      · rw [he]
        constructor
        · intro h
          simp at h
        · intro h
          exfalso
          have hf := h start (le_refl _) (by omega)
          rw [ho] at hf
          exact Bool.true_eq_false.mp hf
      · rw [he]
        intro h
        simp at h
    · have he1 : (waitLoopT obs (f + 1) start).1 = (waitLoopT obs f (start + 1)).1 := by
        simp [waitLoopT, ho]
      have he2 : (waitLoopT obs (f + 1) start).2 =
          3 + (waitLoopT obs f (start + 1)).2 := by
        simp [waitLoopT, ho]
      obtain ⟨ih1, ih2, ih3⟩ := ih (start + 1)
      refine ⟨?_, ?_, ?_⟩
      · intro i h
        rw [he1] at h
        obtain ⟨o1, o2, o3, o4, o5⟩ := ih1 i h
        refine ⟨o1, by omega, by omega, ?_, ?_⟩
        · intro j hj1 hj2
          by_cases hjs : j = start
          · subst hjs
            simpa using ho
          · exact o4 j (by omega) hj2
        · rw [he2, o5]
          omega
      · rw [he1, ih2]
        constructor
        · intro h i h1 h2
          by_cases hjs : i = start
          · subst hjs
            simpa using ho
          · exact h i (by omega) (by omega)
        · intro h i h1 h2
          exact h i (by omega) (by omega)
      · intro h
        rw [he1] at h
        rw [he2, ih3 h]
        omega

/-- C4: the login wait polls the cookie check at 3-second intervals for
at most 100 polls; it succeeds at the first poll observing the
authenticated state, having slept 3 times the number of polls made; it
returns None exactly when no poll within the 100 succeeds, after 300
seconds of sleeping, in which case publish_content ends the run with
the not_logged_in outcome without retrying the wait. -/
theorem login_wait_claim :
    (∀ (obs : Nat → Bool) (i : Nat), waitForLogin obs = some i →
      obs i = true ∧ i < 100 ∧ (∀ j, j < i → obs j = false) ∧
      loginElapsed obs = 3 * (i + 1)) ∧
    (∀ obs : Nat → Bool,
      (waitForLogin obs = none ↔ ∀ i, i < 100 → obs i = false)) ∧
    (∀ obs : Nat → Bool, waitForLogin obs = none →
      loginElapsed obs = 300 ∧
      publishLoginPhase false obs = some Status.not_logged_in) := by
  refine ⟨?_, ?_, ?_⟩
  · intro obs i h
    obtain ⟨s1, s2, s3⟩ := waitLoopT_spec obs 100 0
    obtain ⟨o1, o2, o3, o4, o5⟩ := s1 i h
    refine ⟨o1, by omega, fun j hj => o4 j (by omega) hj, ?_⟩
    show (waitLoopT obs 100 0).2 = 3 * (i + 1)
    rw [o5]
    omega
  · intro obs
    obtain ⟨s1, s2, s3⟩ := waitLoopT_spec obs 100 0
    constructor
    · intro h i hi
      exact (s2.mp h) i (by omega) (by omega)
    · intro h
      exact s2.mpr (fun i h1 h2 => h i (by omega))
  · intro obs h
    obtain ⟨s1, s2, s3⟩ := waitLoopT_spec obs 100 0
    refine ⟨?_, ?_⟩
    · show (waitLoopT obs 100 0).2 = 300
      rw [s3 h]
    · simp [publishLoginPhase, h]

/-- C4 witness: the claim instantiated at an observation succeeding at
poll 5 and at one never succeeding. -/
theorem login_wait_claim_witness :
    ((fun i => decide (i = 5)) 5 = true ∧ 5 < 100 ∧
      (∀ j, j < 5 → (fun i => decide (i = 5)) j = false) ∧
      loginElapsed (fun i => decide (i = 5)) = 3 * (5 + 1)) ∧
    (waitForLogin (fun _ => false) = none ↔
      ∀ i, i < 100 → (fun _ : Nat => false) i = false) ∧
    (loginElapsed (fun _ => false) = 300 ∧
      publishLoginPhase false (fun _ => false) = some Status.not_logged_in) :=
  ⟨login_wait_claim.1 (fun i => decide (i = 5)) 5 (by decide),
   login_wait_claim.2.1 (fun _ => false),
   login_wait_claim.2.2 (fun _ => false) (by decide)⟩

/-! ## Claim C3 (confirmed) -/

theorem resolveTimed_first {σ α : Type} (env : σ → Option α) (timeout : Nat)
    (succTime : σ → Nat) :
    ∀ (chain : List σ) (k : Nat) (s : σ) (h : α),
      chain[k]? = some s → env s = some h →
      (∀ j, j < k → ∀ s2, chain[j]? = some s2 → env s2 = none) →
      resolveTimed env timeout succTime chain =
        (some h, chain.take (k + 1), k * timeout + succTime s) := by
  intro chain
  induction chain with
  | nil =>
    intro k s h hk _ _
    simp at hk
  | cons c rest ih =>
    intro k s h hk henv hprev
    cases k with
    | zero =>
      have hcs : c = s := by simpa using hk
      subst hcs
      simp [resolveTimed, henv]
    | succ m =>
      have hc : env c = none := hprev 0 (by omega) c (by simp)
      have hk2 : rest[m]? = some s := by simpa using hk
      have hprev2 : ∀ j, j < m → ∀ s2, rest[j]? = some s2 → env s2 = none := by
        intro j hj s2 hs2
        exact hprev (j + 1) (by omega) s2 (by simpa using hs2)
      have hrec := ih m s h hk2 henv hprev2
      simp [resolveTimed, hc, hrec]
      ring

theorem resolveTimed_all_none {σ α : Type} (env : σ → Option α) (timeout : Nat)
    (succTime : σ → Nat) :
    ∀ chain : List σ, (∀ s ∈ chain, env s = none) →
      resolveTimed env timeout succTime chain =
        (none, chain, chain.length * timeout) := by
  intro chain
  induction chain with
  | nil =>
    intro _
    simp [resolveTimed]
  | cons c rest ih =>
    intro h
    have hc : env c = none := h c (by simp)
    have hrest := ih (fun s hs => h s (List.mem_cons_of_mem _ hs))
    simp [resolveTimed, hc, hrest]
    ring

theorem resolveChain_none_iff {σ α : Type} (env : σ → Option α) :
    ∀ chain : List σ,
      (resolveChain env chain = none ↔ ∀ s ∈ chain, env s = none) := by
  intro chain
  induction chain with
  | nil => simp [resolveChain]
  | cons c rest ih =>
    cases henv : env c with
    | some x =>
      constructor
      · intro h
        simp [resolveChain, henv] at h
      · intro h
        have := h c (by simp)
        rw [henv] at this
        exact absurd this (by simp)
    | none =>
      constructor
      · intro h s hs
        rcases List.mem_cons.mp hs with h1 | h1
        · subst h1
          exact henv
        · have h2 : resolveChain env rest = none := by
            simpa [resolveChain, henv] using h
          exact (ih.mp h2) s h1
      · intro h
        have h2 : resolveChain env rest = none :=
          ih.mpr (fun s hs => h s (List.mem_cons_of_mem _ hs))
        simp [resolveChain, henv, h2]

/-- C3: chain resolution attempts candidates strictly in declared order;
when candidate k (0-indexed) is the first to resolve, the attempted list
is exactly the first k+1 candidates (later candidates are never
evaluated) and the elapsed time is k full timeouts plus the resolution
time of candidate k; when every candidate fails the whole chain is
attempted for the sum of all timeouts and the result is none, and the
publish flow turns that into the error outcome. -/
theorem selector_resolution_claim :
    (∀ (σ α : Type) (env : σ → Option α) (timeout : Nat) (succTime : σ → Nat)
      (chain : List σ) (k : Nat) (s : σ) (h : α),
      chain[k]? = some s → env s = some h →
      (∀ j, j < k → ∀ s2, chain[j]? = some s2 → env s2 = none) →
      resolveTimed env timeout succTime chain =
        (some h, chain.take (k + 1), k * timeout + succTime s)) ∧
    (∀ (σ α : Type) (env : σ → Option α) (timeout : Nat) (succTime : σ → Nat)
      (chain : List σ), (∀ s ∈ chain, env s = none) →
      resolveTimed env timeout succTime chain =
        (none, chain, chain.length * timeout)) ∧
    (∀ env : String → Option Nat,
      (textToImageStatus env = some Status.error ↔
        ∀ s ∈ textToImageSelectors, env s = none)) := by
  refine ⟨?_, ?_, ?_⟩
  · intro σ α env timeout succTime chain k s h h1 h2 h3
    exact resolveTimed_first env timeout succTime chain k s h h1 h2 h3
  · intro σ α env timeout succTime chain h
    exact resolveTimed_all_none env timeout succTime chain h
  · intro env
    unfold textToImageStatus
    cases hres : resolveChain env textToImageSelectors with
    | none =>
      simp only [hres]
      constructor
      · intro _
        exact (resolveChain_none_iff env textToImageSelectors).mp hres
      · intro _
        trivial
    | some x =>
      simp only [hres]
      constructor
      · intro h
        exact absurd h (by simp)
      · intro h
        have := (resolveChain_none_iff env textToImageSelectors).mpr h
        rw [hres] at this
        exact absurd this (by simp)

/-- C3 witness: a three-candidate chain whose second candidate is the
first to resolve, a chain where every candidate fails, and the error
outcome of the text-to-image step when no selector resolves. -/
theorem selector_resolution_claim_witness :
    resolveTimed (fun n => if n = 1 then some 7 else none) 3000 (fun _ => 100)
        [0, 1, 2] = (some 7, [0, 1], 1 * 3000 + 100) ∧
    resolveTimed (fun _ : Nat => (none : Option Nat)) 3000 (fun _ => 100)
        [0, 1, 2] = (none, [0, 1, 2], ([0, 1, 2] : List Nat).length * 3000) ∧
    (textToImageStatus (fun _ => none) = some Status.error ↔
      ∀ s ∈ textToImageSelectors, (fun _ : String => (none : Option Nat)) s = none) :=
  ⟨selector_resolution_claim.1 Nat Nat (fun n => if n = 1 then some 7 else none)
      3000 (fun _ => 100) [0, 1, 2] 1 1 7 (by decide) (by decide)
      (by
        intro j hj s2 hs2
        have hj0 : j = 0 := by omega
        subst hj0
        have hs0 : s2 = 0 := by simpa using hs2.symm
        subst hs0
        rfl),
   selector_resolution_claim.2.1 Nat Nat (fun _ => none) 3000 (fun _ => 100)
      [0, 1, 2] (fun s _ => rfl),
   selector_resolution_claim.2.2 (fun _ => none)⟩

/-! ## Claim C6 (confirmed) -/

theorem uploadWaitAux_polls (uploading : Nat → Bool) :
    ∀ fuel start, ∀ e ∈ (uploadWaitAux uploading fuel start).1,
      ∃ i, e = PEvent.uploadPoll i := by
  intro fuel
  induction fuel with
  | zero =>
    intro start e he
    simp [uploadWaitAux] at he
  | succ f ih =>
    intro start e he
    by_cases hu : uploading start
    · simp only [uploadWaitAux, hu, if_pos] at he
      rcases List.mem_cons.mp he with h1 | h1
      · exact ⟨start, h1⟩
      · exact ih (start + 1) e h1
    · simp only [uploadWaitAux, hu, Bool.false_eq_true, if_false] at he
      rcases List.mem_singleton.mp he with h1
      exact ⟨start, h1⟩

theorem uploadWaitAux_length_le (uploading : Nat → Bool) :
    ∀ fuel start, (uploadWaitAux uploading fuel start).1.length ≤ fuel := by
  intro fuel
  induction fuel with
  | zero =>
    intro start
    simp [uploadWaitAux]
  | succ f ih =>
    intro start
    by_cases hu : uploading start
    · simp only [uploadWaitAux, hu, if_pos, List.length_cons]
      have := ih (start + 1)
      omega
    · simp only [uploadWaitAux, hu, Bool.false_eq_true, if_false]
      simp

theorem uploadWaitAux_stops (uploading : Nat → Bool) :
    ∀ fuel start j, start ≤ j → j < start + fuel →
      (∀ i, start ≤ i → i < j → uploading i = true) → uploading j = false →
      (uploadWaitAux uploading fuel start).1.length = j + 1 - start := by
  intro fuel
  induction fuel with
  | zero =>
    intro start j h1 h2
    omega
  | succ f ih =>
    intro start j h1 h2 hall hj
    by_cases hjs : j = start
    · subst hjs
      simp only [uploadWaitAux, hj]
      rw [if_neg (by simp)]
      simp
    · have hu : uploading start = true := hall start (le_refl _) (by omega)
      simp only [uploadWaitAux, hu, if_pos, List.length_cons]
      have := ih (start + 1) j (by omega) (by omega)
        (fun i hi1 hi2 => hall i (by omega) hi2) hj
      omega

/-- C6: the publish click only ever appears strictly after every upload
poll in the event trace; the upload wait is bounded by 30 polls and
stops at the first poll where no in-progress marker is present; a
missing publish button yields the ready outcome with no click, while a
click with no success marker yields ready_to_confirm, which is distinct
from the error outcome and from ready. -/
theorem submission_gating_claim (uploading : Nat → Bool) (hasButton marker : Bool) :
    (∀ m k i : Nat,
      (publishFinal uploading hasButton marker).2[m]? = some (PEvent.uploadPoll i) →
      (publishFinal uploading hasButton marker).2[k]? = some PEvent.publishClick →
      m < k) ∧
    ((publishFinal uploading hasButton marker).2.filter isUploadPoll).length ≤ 30 ∧
    (∀ j, j < 30 → (∀ i, i < j → uploading i = true) → uploading j = false →
      ((publishFinal uploading hasButton marker).2.filter isUploadPoll).length = j + 1) ∧
    (hasButton = false →
      (publishFinal uploading hasButton marker).1 = Status.ready ∧
      PEvent.publishClick ∉ (publishFinal uploading hasButton marker).2) ∧
    (hasButton = true → marker = false →
      (publishFinal uploading hasButton marker).1 = Status.ready_to_confirm) ∧
    Status.ready_to_confirm ≠ Status.error ∧
    Status.ready ≠ Status.ready_to_confirm := by
  have hpolls : ∀ e ∈ (uploadWait uploading).1, ∃ i, e = PEvent.uploadPoll i :=
    uploadWaitAux_polls uploading 30 0
  have htrace : (publishFinal uploading hasButton marker).2 =
      (uploadWait uploading).1 ++ (submitPhase hasButton marker).2 := rfl
  have hsub : ∀ e ∈ (submitPhase hasButton marker).2, e = PEvent.publishClick := by
    cases hasButton <;> cases marker <;> simp [submitPhase]
  have hfilter1 : (uploadWait uploading).1.filter isUploadPoll =
      (uploadWait uploading).1 := by
    apply List.filter_eq_self.mpr
    intro e he
    obtain ⟨i, hi⟩ := hpolls e he
    subst hi
    rfl
  have hfilter2 : (submitPhase hasButton marker).2.filter isUploadPoll = [] := by
    cases hasButton <;> cases marker <;> simp [submitPhase, isUploadPoll]
  refine ⟨?_, ?_, ?_, ?_, ?_, by decide, by decide⟩
  · intro m k i hm hk
    rw [htrace] at hm hk
    have hmlt : m < (uploadWait uploading).1.length := by
      by_contra hge
      push_neg at hge
      rw [List.getElem?_append_right hge] at hm
      have hmem := List.getElem?_mem hm
      have := hsub _ hmem
      simp at this
    have hkge : (uploadWait uploading).1.length ≤ k := by
      by_contra hlt
      push_neg at hlt
      rw [List.getElem?_append_left hlt] at hk
      have hmem := List.getElem?_mem hk
      obtain ⟨i2, hi2⟩ := hpolls _ hmem
      simp at hi2
    omega
  · rw [htrace, List.filter_append, hfilter1, hfilter2]
    simpa using uploadWaitAux_length_le uploading 30 0
  · intro j hj hall hstop
    rw [htrace, List.filter_append, hfilter1, hfilter2]
    have := uploadWaitAux_stops uploading 30 0 j (by omega) (by omega)
      (fun i _ hi2 => hall i hi2) hstop
    simpa using this
  · intro hb
    subst hb
    refine ⟨rfl, ?_⟩
    rw [htrace]
    intro hmem
    rcases List.mem_append.mp hmem with h1 | h1
    · obtain ⟨i, hi⟩ := hpolls _ h1
      simp at hi
    · simp [submitPhase] at h1
  · intro hb hm
    subst hb
    subst hm
    rfl

/-- C6 witness: the claim instantiated at a marker that clears at poll 2,
with the publish button present but no success marker, and at a run with
no publish button. -/
theorem submission_gating_claim_witness :
    (0 : Nat) < 3 ∧
    ((publishFinal (fun i => decide (i < 2)) true false).2.filter isUploadPoll).length ≤ 30 ∧
    ((publishFinal (fun i => decide (i < 2)) true false).2.filter isUploadPoll).length = 3 ∧
    (publishFinal (fun i => decide (i < 2)) true false).1 = Status.ready_to_confirm ∧
    (publishFinal (fun i => decide (i < 2)) false false).1 = Status.ready ∧
    PEvent.publishClick ∉ (publishFinal (fun i => decide (i < 2)) false false).2 := by
  have H1 := submission_gating_claim (fun i => decide (i < 2)) true false
  have H2 := submission_gating_claim (fun i => decide (i < 2)) false false
  exact ⟨H1.1 0 3 0 (by decide) (by decide),
    H1.2.1,
    H1.2.2.1 2 (by omega) (by intro i hi; simpa using hi) (by decide),
    H1.2.2.2.2.1 rfl rfl,
    (H2.2.2.2.1 rfl).1,
    (H2.2.2.2.1 rfl).2⟩

/-! ## Claim C5 (confirmed) -/

theorem activateAux_allfail (env : WEnv) (maxR : Nat) :
    ∀ fuel attempt, attempt + fuel = maxR + 1 → 1 ≤ fuel →
      (∀ i, attempt ≤ i → i ≤ maxR → env.findWin i = none) →
      (activateAux env maxR attempt fuel).1 = none ∧
      ((activateAux env maxR attempt fuel).2.filter isFindEvent).length = fuel ∧
      (∀ i, attempt ≤ i → i < maxR →
        AEvent.procCheck i ∈ (activateAux env maxR attempt fuel).2 ∧
        (env.procRunning i = false →
          AEvent.launchTry i ∈ (activateAux env maxR attempt fuel).2)) := by
  intro fuel
  induction fuel with
  | zero =>
    intro attempt h1 h2 _
    omega
  | succ f ih =>
    intro attempt h1 _ hfind
    have hfw : env.findWin attempt = none := hfind attempt (le_refl _) (by omega)
    by_cases hf0 : f = 0
    · subst hf0
      have hnl : ¬ attempt < maxR := by omega
      have he : activateAux env maxR attempt 1 = (none, [AEvent.findAttempt attempt]) := by
        simp [activateAux, hfw, hnl]
      rw [he]
      refine ⟨rfl, by simp [isFindEvent], ?_⟩
      intro i hi1 hi2
      omega
    · have hlt : attempt < maxR := by omega
      obtain ⟨ih1, ih2, ih3⟩ := ih (attempt + 1) (by omega) (by omega)
        (fun i hi1 hi2 => hfind i (by omega) hi2)
      have he1 : (activateAux env maxR attempt (f + 1)).1 =
          (activateAux env maxR (attempt + 1) f).1 := by
        simp [activateAux, hfw, hlt]
      have he2 : (activateAux env maxR attempt (f + 1)).2 =
          AEvent.findAttempt attempt :: AEvent.procCheck attempt ::
            ((if env.procRunning attempt then [AEvent.trayRestore attempt]
              else [AEvent.launchTry attempt]) ++
              (activateAux env maxR (attempt + 1) f).2) := by
        simp [activateAux, hfw, hlt]
      refine ⟨?_, ?_, ?_⟩
      · rw [he1]
        exact ih1
      · rw [he2]
        by_cases hp : env.procRunning attempt
        · rw [if_pos hp]
          simp only [List.filter_cons, List.filter_append]
          simp [isFindEvent, ih2]
        · rw [if_neg hp]
          simp only [List.filter_cons, List.filter_append]
          simp [isFindEvent, ih2]
      · intro i hi1 hi2
        rw [he2]
        by_cases hia : i = attempt
        · subst hia
          refine ⟨by simp, ?_⟩
          intro hpr
          rw [hpr]
          simp
        · have hrest := ih3 i (by omega) hi2
          refine ⟨?_, ?_⟩
          · simp only [List.mem_cons, List.mem_append]
            exact Or.inr (Or.inr (Or.inr hrest.1))
          · intro hpr
            simp only [List.mem_cons, List.mem_append]
            exact Or.inr (Or.inr (Or.inr (hrest.2 hpr)))

theorem launchAux_no_paths (le : LaunchEnv) :
    ∀ js, (∀ j ∈ js, le.pathExists j = false) →
      launchAux le js = (le.shellOk, []) := by
  intro js
  induction js with
  | nil =>
    intro _
    rfl
  | cons j rest ih =>
    intro h
    have hj : le.pathExists j = false := h j (by simp)
    simp only [launchAux, hj]
    rw [if_neg (by simp)]
    exact ih (fun x hx => h x (List.mem_cons_of_mem _ hx))

theorem launchAux_first (le : LaunchEnv) :
    ∀ (pre post : List Nat) (j : Nat), (∀ x ∈ pre, le.pathExists x = false) →
      le.pathExists j = true → le.popenOk j = true →
      launchAux le (pre ++ j :: post) = (true, [j]) := by
  intro pre
  induction pre with
  | nil =>
    intro post j _ hex hok
    simp [launchAux, hex, hok]
  | cons a rest ih =>
    intro post j h hex hok
    have ha : le.pathExists a = false := h a (by simp)
    simp only [List.cons_append, launchAux, ha]
    rw [if_neg (by simp)]
    exact ih post j (fun x hx => h x (List.mem_cons_of_mem _ hx)) hex hok

/-- C5: when the target window is absent on every attempt,
activate_wechat makes exactly maxRetries window queries, checks the
owning process (and calls launch_wechat when it is not running) on each
attempt but the last, and ends with the error result after the final
attempt; launch_wechat walks the prioritized path list in order and
falls back to the shell launch when no path exists (a failing shell
launch yields False). -/
theorem surface_acquisition_claim :
    (∀ (env : WEnv) (maxR : Nat), 1 ≤ maxR →
      (∀ i, 1 ≤ i → i ≤ maxR → env.findWin i = none) →
      (activateWechat env maxR).1 = none ∧
      ((activateWechat env maxR).2.filter isFindEvent).length = maxR ∧
      (∀ i, 1 ≤ i → i < maxR →
        AEvent.procCheck i ∈ (activateWechat env maxR).2 ∧
        (env.procRunning i = false →
          AEvent.launchTry i ∈ (activateWechat env maxR).2))) ∧
    (∀ le : LaunchEnv,
      ((∀ j, j < 6 → le.pathExists j = false) →
        launchWechat le = (le.shellOk, [])) ∧
      (∀ j, j < 6 → le.pathExists j = true → le.popenOk j = true →
        (∀ j2, j2 < j → le.pathExists j2 = false) →
        launchWechat le = (true, [j]))) := by
  constructor
  · intro env maxR h1 h2
    exact activateAux_allfail env maxR maxR 1 (by omega) (by omega) h2
  · intro le
    constructor
    · intro h
      apply launchAux_no_paths
      intro j hj
      apply h
      simp at hj
      omega
    · intro j hj hex hok hprev
      interval_cases j
      · exact launchAux_first le [] [1, 2, 3, 4, 5] 0 (by simp) hex hok
      · exact launchAux_first le [0] [2, 3, 4, 5] 1
          (by intro x hx; apply hprev; simp at hx; omega) hex hok
      · exact launchAux_first le [0, 1] [3, 4, 5] 2
          (by intro x hx; apply hprev; simp at hx; omega) hex hok
      · exact launchAux_first le [0, 1, 2] [4, 5] 3
          (by intro x hx; apply hprev; simp at hx; omega) hex hok
      · exact launchAux_first le [0, 1, 2, 3] [5] 4
          (by intro x hx; apply hprev; simp at hx; omega) hex hok
      · exact launchAux_first le [0, 1, 2, 3, 4] [] 5
          (by intro x hx; apply hprev; simp at hx; omega) hex hok

/-- C5 witness: three failing attempts with the process never running,
a launch environment with no existing path and a failing shell launch,
and one whose third path is the first that exists. -/
theorem surface_acquisition_claim_witness :
    (activateWechat ⟨fun _ => none, fun _ => false⟩ 3).1 = none ∧
    ((activateWechat ⟨fun _ => none, fun _ => false⟩ 3).2.filter isFindEvent).length = 3 ∧
    AEvent.procCheck 1 ∈ (activateWechat ⟨fun _ => none, fun _ => false⟩ 3).2 ∧
    AEvent.launchTry 1 ∈ (activateWechat ⟨fun _ => none, fun _ => false⟩ 3).2 ∧
    launchWechat ⟨fun _ => false, fun _ => true, false⟩ = (false, []) ∧
    launchWechat ⟨fun j => decide (j = 2), fun _ => true, false⟩ = (true, [2]) := by
  have H := surface_acquisition_claim.1 ⟨fun _ => none, fun _ => false⟩ 3
    (by omega) (fun i _ _ => rfl)
  have L1 := (surface_acquisition_claim.2 ⟨fun _ => false, fun _ => true, false⟩).1
    (fun j _ => rfl)
  have L2 := (surface_acquisition_claim.2 ⟨fun j => decide (j = 2), fun _ => true, false⟩).2
    2 (by omega) (by decide) rfl (by intro j2 hj2; interval_cases j2 <;> rfl)
  exact ⟨H.1, H.2.1, (H.2.2 1 (by omega) (by omega)).1,
    (H.2.2 1 (by omega) (by omega)).2 rfl, L1, L2⟩

/-! ## Claims C8 and C10 -/

theorem titleMatches_nil (title : Option (List Char)) :
    titleMatches [] title = false := by
  cases title <;> simp [titleMatches]

theorem selectAux_all_fail (keywords : List (List Char))
    (titleAt : Nat → Option (List Char)) :
    ∀ fuel attempt, (∀ i, attempt ≤ i → i < attempt + fuel →
        titleMatches keywords (titleAt i) = false) →
      (selectAux keywords titleAt attempt fuel).1 = false := by
  intro fuel
  induction fuel with
  | zero =>
    intro attempt _
    rfl
  | succ f ih =>
    intro attempt h
    have h0 : titleMatches keywords (titleAt attempt) = false :=
      h attempt (le_refl _) (by omega)
    simp only [selectAux, h0]
    rw [if_neg (by simp)]
    exact ih (attempt + 1) (fun i h1 h2 => h i (by omega) (by omega))

/-- C8: with keywords derived from a 2-word query, when the title
observed at attempt 0 matches no keyword and the title observed at
attempt 1 contains one, the auto-retry selection succeeds having sent
exactly two key events - one down arrow to skip the first row and one
enter to accept the second; and when no observed title matches within
the row budget, it returns failure. -/
theorem auto_retry_claim :
    (∀ (contact : List Char) (titleAt : Nat → Option (List Char)),
      (pySplit contact).length = 2 →
      titleMatches (deriveKeywords contact) (titleAt 0) = false →
      titleMatches (deriveKeywords contact) (titleAt 1) = true →
      titleMatches (deriveKeywords contact) (titleAt 2) = false →
      selectContactWithRetry contact titleAt 3 =
        (true, [KeyEv.down, KeyEv.enter])) ∧
    (∀ (contact : List Char) (titleAt : Nat → Option (List Char)) (maxR : Nat),
      (∀ i, i < maxR →
        titleMatches (deriveKeywords contact) (titleAt i) = false) →
      (selectContactWithRetry contact titleAt maxR).1 = false) := by
  constructor
  · intro contact titleAt _ h0 h1 _
    show selectAux (deriveKeywords contact) titleAt 0 3 =
      (true, [KeyEv.down, KeyEv.enter])
    simp only [selectAux, h0, h1]
    rw [if_neg (by simp)]
    simp [List.replicate]
  · intro contact titleAt maxR h
    exact selectAux_all_fail (deriveKeywords contact) titleAt maxR 0
      (fun i _ h2 => h i (by omega))

/-- C8 witness: a two-word query whose keyword appears in the window
title observed at attempt 1 only, and a run where no title ever
matches. -/
theorem auto_retry_claim_witness :
    selectContactWithRetry ("AI Agents".toList)
        (fun i => if i = 0 then some ("微信".toList)
                  else if i = 1 then some ("AI Agents Group".toList)
                  else none) 3 =
      (true, [KeyEv.down, KeyEv.enter]) ∧
    (selectContactWithRetry ("AI Agents".toList) (fun _ => none) 3).1 = false :=
  ⟨auto_retry_claim.1 ("AI Agents".toList)
      (fun i => if i = 0 then some ("微信".toList)
                else if i = 1 then some ("AI Agents Group".toList)
                else none)
      (by decide) (by decide) (by decide) (by decide),
   auto_retry_claim.2 ("AI Agents".toList) (fun _ => none) 3 (fun i _ => rfl)⟩

/-- C10: a keyword belongs to the derived list exactly when it is the
lowercasing of some whitespace token of the query at least 2 characters
long; hence when every token of the query is shorter than 2 characters
the keyword list is empty and auto-retry selection returns False no
matter what titles are observed. -/
theorem keyword_tokens_claim :
    (∀ (contact : List Char) (kw : List Char),
      kw ∈ deriveKeywords contact ↔
        ∃ tok ∈ pySplit contact, 2 ≤ (pyStrip tok).length ∧
          kw = (pyStrip tok).map pyLowerChar) ∧
    (∀ (contact : List Char) (titleAt : Nat → Option (List Char)) (maxR : Nat),
      (∀ tok ∈ pySplit contact, (pyStrip tok).length < 2) →
      deriveKeywords contact = [] ∧
      (selectContactWithRetry contact titleAt maxR).1 = false) := by
  constructor
  · intro contact kw
    unfold deriveKeywords
    constructor
    · intro h
      obtain ⟨tok, htok, heq⟩ := List.mem_map.mp h
      have h2 := List.mem_filter.mp htok
      exact ⟨tok, h2.1, by simpa using h2.2, heq.symm⟩
    · rintro ⟨tok, htok, hlen, heq⟩
      apply List.mem_map.mpr
      exact ⟨tok, List.mem_filter.mpr ⟨htok, by simpa using hlen⟩, heq.symm⟩
  · intro contact titleAt maxR h
    have hempty : deriveKeywords contact = [] := by
      unfold deriveKeywords
      have hfil : (pySplit contact).filter
          (fun k => decide (2 ≤ (pyStrip k).length)) = [] := by
        rw [List.filter_eq_nil_iff]
        intro tok htok
        have := h tok htok
        simp
        omega
      rw [hfil]
      rfl
    refine ⟨hempty, ?_⟩
    show (selectAux (deriveKeywords contact) titleAt 0 maxR).1 = false
    rw [hempty]
    exact selectAux_all_fail [] titleAt maxR 0
      (fun i _ _ => titleMatches_nil (titleAt i))

/-- C10 witness: the membership characterization at a concrete query and
keyword, and the guaranteed failure on a query of single-character
tokens. -/
theorem keyword_tokens_claim_witness :
    ("ai".toList ∈ deriveKeywords ("AI b".toList) ↔
      ∃ tok ∈ pySplit ("AI b".toList), 2 ≤ (pyStrip tok).length ∧
        "ai".toList = (pyStrip tok).map pyLowerChar) ∧
    (deriveKeywords ("a b c".toList) = [] ∧
      (selectContactWithRetry ("a b c".toList)
        (fun _ => some ("abc".toList)) 3).1 = false) :=
  ⟨keyword_tokens_claim.1 ("AI b".toList) ("ai".toList),
   keyword_tokens_claim.2 ("a b c".toList) (fun _ => some ("abc".toList)) 3
     (by decide)⟩

end OpenCowork
